import Mathlib

/-!
Verification of the GRUB ESFS read-only filesystem driver
(`grub-core/fs/esfs.c`) against its natural-language specification.

Modelling conventions.
* On-disk byte buffers (the 8192-byte superblock, 1024-byte directory
  entries) are functions `Nat → Nat`; every access goes through `byteAt`,
  which truncates to one byte, matching the C driver reading raw memory
  through `grub_uint8_t` pointers.  Reads beyond a struct's nominal size
  simply return whatever the function yields there, mirroring what the C
  code would read from adjacent memory.
* u64 machine arithmetic is modelled on `Nat` with an explicit `% 2 ^ 64`
  at each operation that can wrap in C; `u64sub` is u64 subtraction.
* Device effects are explicit data: the list of issued block-device reads,
  the number of read-hook firings, and the device's read-hook slot are
  threaded through the file-read path and returned with the result.
  `grub_disk_read` itself is external to the repository; it is modelled as
  an oracle `diskOk sector offset len : Bool` deciding success, and (per
  the device interface) as firing the installed read-hook once per issued
  read when the hook slot is non-null.
-/

namespace Esfs

/-- One byte of a raw buffer, as read through a `grub_uint8_t` pointer. -/
def byteAt (mem : Nat → Nat) (i : Nat) : Nat := mem i % 256

/-- Little-endian decode of `k` bytes starting at `off`. -/
def leBytes (mem : Nat → Nat) : Nat → Nat → Nat
  | _, 0 => 0
  | off, k+1 => byteAt mem off + 256 * leBytes mem (off + 1) k

/-- `grub_le_to_cpu16` applied to the two bytes at `off`. -/
def le16 (mem : Nat → Nat) (off : Nat) : Nat := leBytes mem off 2

/-- `grub_le_to_cpu64` applied to the eight bytes at `off`. -/
def le64 (mem : Nat → Nat) (off : Nat) : Nat := leBytes mem off 8

/-- u64 subtraction with C unsigned wrap-around (for operands below `2 ^ 64`). -/
def u64sub (a b : Nat) : Nat := (2 ^ 64 + a - b) % 2 ^ 64

/-- ESFS_SIGNATURE_STRING, the bytes of the ASCII literal. -/
def esfsSignature : List Nat :=
  [33, 69, 115, 115, 101, 110, 99, 101, 70, 83, 50, 45, 45, 45, 45, 45]

/-- ESFS_DIRECTORY_ENTRY_SIGNATURE, the bytes of the ASCII literal. -/
def direntrySignature : List Nat := [68, 105, 114, 69, 110, 116, 114, 121]

/-- `grub_memcmp (mem, sig, sig.length) == 0`. -/
def sigMatch (mem : Nat → Nat) (sig : List Nat) : Bool :=
  (List.range sig.length).all (fun i => byteAt mem i == sig.getD i 0)

/-- `esfs_check_direntry`: accept a 1024-byte directory entry.  The C body
checks only the literal 8-byte signature (the checksum is a TODO). -/
def esfs_check_direntry (m : Nat → Nat) : Bool := sigMatch m direntrySignature

/-- Error surface of the driver (`grub_errno` values with their messages). -/
inductive GrubErr where
  | badFS (msg : String)
  | badFileType (msg : String)
  | outOfRange
  | diskErr
deriving DecidableEq, Repr

/-- The attribute-list walk of `get_direntry_attribute`, with an explicit
iteration budget.  The C loop runs while `off ≤ 1020` and each pass either
returns or advances `off` by `size ≥ 4`, so it performs at most 256 passes;
the budget 1024 therefore never runs out and the translation is exact. -/
def findAttrAux (mem : Nat → Nat) (attrid minsize : Nat) : Nat → Nat → Option Nat
  | 0, _ => none
  | gas+1, off =>
    if off ≤ 1020 then
      if off % 8 ≠ 0 then none
      else
        let size := le16 mem (off + 2)
        if size < 4 ∨ 1024 < size + off then none
        else if le16 mem off = attrid ∧ minsize ≤ size then some off
        else findAttrAux mem attrid minsize gas (off + size)
    else none

/-- `get_direntry_attribute (direntry, attrid, minsize)`: walk the attribute
list starting at the entry's `attributeOffset` (little-endian u16 at byte 28)
and return the byte offset of the first matching attribute. -/
def get_direntry_attribute (mem : Nat → Nat) (attrid minsize : Nat) : Option Nat :=
  findAttrAux mem attrid minsize 1024 (le16 mem 28)

/-- `startBytes = ((header >> 0) & 7) + 1` of an extent record header. -/
def extentStartBytes (h : Nat) : Nat := (h &&& 7) + 1

/-- `countBytes = ((header >> 3) & 7) + 1` of an extent record header. -/
def extentCountBytes (h : Nat) : Nat := ((h >>> 3) &&& 7) + 1

/-- The accumulator seed for the extent start delta: all ones when the top
bit of the first delta byte is set (`start = (grub_uint64_t) -1`), else 0. -/
def extentSeed (mem : Nat → Nat) (off : Nat) : Nat :=
  if 128 ≤ byteAt mem off then 2 ^ 64 - 1 else 0

/-- The big-endian accumulation loop `acc = (acc << 8) | byte` over `k`
bytes starting at `off`, in u64 arithmetic. -/
def beAccum (mem : Nat → Nat) : Nat → Nat → Nat → Nat
  | acc, _, 0 => acc
  | acc, off, k+1 => beAccum mem ((acc * 256) % 2 ^ 64 + byteAt mem off) (off + 1) k

/-- Mathematical big-endian value of `k` bytes starting at `off` (most
significant byte first); reference value for the extent decoder. -/
def beVal (mem : Nat → Nat) : Nat → Nat → Nat
  | _, 0 => 0
  | off, k+1 => byteAt mem off * 2 ^ (8 * k) + beVal mem (off + 1) k

/-- The specification's reading of the extent start field: the `k` bytes at
`off` as a two's-complement signed integer of `k` bytes. -/
def extentSignedDelta (mem : Nat → Nat) (off k : Nat) : Int :=
  if 128 ≤ byteAt mem off then (beVal mem off k : Int) - 2 ^ (8 * k)
  else (beVal mem off k : Int)

/-- Device-effect state threaded through `grub_esfs_read_file`: the issued
block-device reads `(sector, offset, length)`, the number of times the
installed read-hook fired, and the device's read-hook slot. -/
structure RFState where
  reads : List (Nat × Nat × Nat)
  hookFires : Nat
  hookSet : Bool
deriving DecidableEq, Repr

/-- Result of the L1 extent loop: the C return value, the `grub_errno`
effect, and the device-effect state. -/
structure L1Res where
  ret : Int
  err : Option GrubErr
  st : RFState
deriving DecidableEq, Repr

/-- The L1 extent loop of `grub_esfs_read_file`.  `aoff` is the byte offset
of the DATA attribute inside the entry, `extOff` the running offset of the
extent stream relative to the attribute (starting at `dataOffset`), and the
first argument is the remaining extent budget `count - extnum`.  All u64
operations wrap modulo `2 ^ 64` exactly where the C code can wrap. -/
def l1Loop (mem : Nat → Nat) (aoff dataSize bsize len pos : Nat)
    (diskOk : Nat → Nat → Nat → Bool) (hook : Bool) :
    Nat → Nat → Nat → Nat → Nat → RFState → L1Res
  | 0, _, _, alreadyRead, _, st => ⟨(alreadyRead : Int), none, st⟩
  | fuel+1, extOff, curPos, alreadyRead, curStart, st =>
    if alreadyRead < len then
      let h := byteAt mem (aoff + extOff)
      let sB := extentStartBytes h
      let cB := extentCountBytes h
      let o1 := extOff + 1
      if dataSize < o1 + sB + cB then ⟨(alreadyRead : Int), none, st⟩
      else
        let start := beAccum mem (extentSeed mem (aoff + o1)) (aoff + o1) sB
        let cnt := beAccum mem 0 (aoff + o1 + sB) cB
        let curStart1 := (curStart + start) % 2 ^ 64
        let o2 := o1 + sB + cB
        let countBytes := (cnt * bsize) % 2 ^ 64
        if (curPos + countBytes) % 2 ^ 64 < pos then
          l1Loop mem aoff dataSize bsize len pos diskOk hook
            fuel o2 ((curPos + countBytes) % 2 ^ 64) alreadyRead curStart1 st
        else
          let addOff := if curPos < pos then pos - curPos else 0
          let toRead0 := len - alreadyRead
          let toRead :=
            if u64sub countBytes addOff < toRead0 then u64sub countBytes addOff else toRead0
          let sector := ((curStart1 * (bsize / 512)) % 2 ^ 64 + addOff / 512) % 2 ^ 64
          let st1 : RFState :=
            ⟨st.reads ++ [(sector, addOff % 512, toRead)],
             st.hookFires + (if hook then 1 else 0), hook⟩
          if diskOk sector (addOff % 512) toRead then
            l1Loop mem aoff dataSize bsize len pos diskOk hook
              fuel o2 ((curPos + countBytes) % 2 ^ 64) (alreadyRead + toRead) curStart1
              ⟨st1.reads, st1.hookFires, false⟩
          else ⟨-1, some .diskErr, st1⟩
    else ⟨(alreadyRead : Int), none, st⟩

/-- Result of `grub_esfs_read_file`: the C return value (`-1` or the byte
count), the `grub_errno` effect, the bytes copied to the output buffer on
the DIRECT path, the embedded-data offsets (relative to `dataOffset`) those
bytes were taken from, the length after the `fileSize` clamp (when control
reaches it), and the device-effect state. -/
structure RFOut where
  ret : Int
  err : Option GrubErr
  out : List Nat
  srcOffs : List Nat
  effLen : Option Nat
  reads : List (Nat × Nat × Nat)
  hookFires : Nat
  hookSet : Bool

/-- `grub_esfs_read_file (node, read_hook, pos, len, buf)`.  `mem` is the
node's 1024-byte directory entry, `bsize` the volume block size, `diskOk`
the device oracle and `hook` whether a non-null read-hook was supplied.
On the L1 path the data lands in the caller's buffer from the device, so
`out`/`srcOffs` track only the DIRECT path's embedded copy. -/
def grub_esfs_read_file (mem : Nat → Nat) (bsize : Nat)
    (diskOk : Nat → Nat → Nat → Bool) (hook : Bool) (pos len : Nat) : RFOut :=
  match get_direntry_attribute mem 1 32 with
  | none => ⟨-1, some (.badFS "extents are missing"), [], [], none, [], 0, false⟩
  | some a =>
    let size := le16 mem (a + 2)
    let dOff := byteAt mem (a + 5)
    if size < dOff then
      ⟨-1, some (.badFS "data offset is too large"), [], [], none, [], 0, false⟩
    else
      let fS := le64 mem 56
      if fS < pos then ⟨-1, none, [], [], none, [], 0, false⟩
      else
        let len1 := if fS < (len + pos) % 2 ^ 64 then fS - pos else len
        let dataSize := size - dOff
        let ind := byteAt mem (a + 4)
        if ind = 1 then
          let cnt := le16 mem (a + 6)
          let maxSize := if cnt < dataSize then dataSize else cnt
          if maxSize < pos then ⟨-1, none, [], [], some len1, [], 0, false⟩
          else
            let len2 := if maxSize - pos < len1 then maxSize - pos else len1
            ⟨(len2 : Int), none,
             (List.range len2).map (fun i => byteAt mem (a + dOff + pos + i)),
             (List.range len2).map (fun i => pos + i),
             some len1, [], 0, false⟩
        else if ind = 2 then
          let r := l1Loop mem a dataSize bsize len1 pos diskOk hook
            (le16 mem (a + 6)) dOff 0 0 0 ⟨[], 0, false⟩
          ⟨r.ret, r.err, [], [], some len1, r.st.reads, r.st.hookFires, r.st.hookSet⟩
        else ⟨-1, some (.badFS "unknown redirection"), [], [], some len1, [], 0, false⟩

/-- The failing disjunction of `grub_esfs_mount`'s superblock validation,
field for field as in the C condition.  `blockSize` is tested against the
mask `grub_cpu_to_le64_compile_time (~0xffffe00)`: the C constant `~0xffffe00`
is a negative 32-bit int, so its conversion to u64 sign-extends to
`0xFFFFFFFFF00001FF`; the byte-swapped mask applied to the raw little-endian
field equals the value-level test modelled here. -/
def superblockBad (sb : Nat → Nat) : Bool :=
  !sigMatch sb esfsSignature
  || 10 < le16 sb 48
  || le64 sb 64 == 0
  || (le64 sb 64 &&& 0xFFFFFFFFF00001FF) != 0
  || le64 sb 72 == 0

/-- Result of `grub_esfs_mount`: the mount outcome (the root directory
entry on success) and whether the root-directory-entry disk read was
issued. -/
structure MountOut where
  res : Except GrubErr (Nat → Nat)
  rootRead : Bool

/-- `grub_esfs_mount (disk)`, given the 8192 superblock bytes already read
from device byte offset `16 × 512` and an oracle `rootRead` for the disk
read of the root directory entry at
`root.block × (blockSize >> 9)` / `root.offset_into_block`.  A failure of
that read with `GRUB_ERR_OUT_OF_RANGE` is rewritten to
`BadFS "not an esfs filesystem"` on the shared failure path. -/
def grub_esfs_mount (sb : Nat → Nat) (rootRead : Except GrubErr (Nat → Nat)) : MountOut :=
  if superblockBad sb then ⟨.error (.badFS "not an esfs filesystem"), false⟩
  else
    match rootRead with
    | .error e =>
      ⟨.error (if e = .outOfRange then .badFS "not an esfs filesystem" else e), true⟩
    | .ok rm =>
      if esfs_check_direntry rm then ⟨.ok rm, true⟩
      else ⟨.error (.badFS "incorrect directory signature"), true⟩

/-- `grub_strndup (mem + off, n)`: at most `n` bytes, stopping at a NUL. -/
def strndupBytes (mem : Nat → Nat) : Nat → Nat → List Nat
  | _, 0 => []
  | off, n+1 =>
    if byteAt mem off = 0 then [] else byteAt mem off :: strndupBytes mem (off + 1) n

/-- The per-slot body of `grub_esfs_iterate_dir`: what one 1024-byte slot
contributes.  `none` means the slot is skipped (bad signature, missing or
malformed FILENAME attribute, unknown node type); `some (name, ty)` is the
emitted filename bytes and the esfs node type (2 = directory, 1 = file). -/
def slotParse (m : Nat → Nat) : Option (List Nat × Nat) :=
  if !esfs_check_direntry m then none
  else
    match get_direntry_attribute m 2 8 with
    | none => none
    | some fa =>
      let fsize := le16 m (fa + 2)
      let flen := le16 m (fa + 4)
      if fsize < 8 ∨ fsize - 8 < flen then none
      else if byteAt m 30 = 2 then some (strndupBytes m (fa + 8) flen, 2)
      else if byteAt m 30 = 1 then some (strndupBytes m (fa + 8) flen, 1)
      else none

/-- Result of `grub_esfs_iterate_dir`: the C int return value, the
`(name, type)` pairs passed to the visitor in order, and the `grub_errno`
effect.  On the error returns the C function returns its nonzero errno
value, modelled as 1. -/
structure IterResult where
  ret : Nat
  emitted : List (List Nat × Nat)
  err : Option GrubErr
deriving DecidableEq, Repr

/-- The slot-walk loop of `grub_esfs_iterate_dir`.  `readSlot i` is the
outcome of `grub_esfs_read_file (diro, 0, 0, 1024 * i, 1024, buf)` as seen
by the loop: the 1024-byte buffer contents afterwards, or the `grub_errno`
value when one was set (on which the C loop frees the slot and returns 0).
The first argument is the number of strides left, `(dirSize + 1023) / 1024`
at the top; `hook` returning true stops the walk with return value 1. -/
def iterDirAux (readSlot : Nat → Except GrubErr (Nat → Nat))
    (hook : List Nat → Nat → Bool) : Nat → Nat → IterResult
  | 0, _ => ⟨0, [], none⟩
  | fuel+1, i =>
    match readSlot i with
    | .error e => ⟨0, [], some e⟩
    | .ok m =>
      match slotParse m with
      | none => iterDirAux readSlot hook fuel (i + 1)
      | some nt =>
        if hook nt.1 nt.2 then ⟨1, [nt], none⟩
        else
          let r := iterDirAux readSlot hook fuel (i + 1)
          ⟨r.ret, nt :: r.emitted, r.err⟩

/-- Number of 1024-byte strides the directory walk visits: `fpos` runs
0, 1024, 2048, … while `fpos < dirSize`. -/
def numSlots (dirSize : Nat) : Nat := (dirSize + 1023) / 1024

/-- `grub_esfs_iterate_dir (dir, hook)`.  `dirMem` is the directory node's
1024-byte entry (`nodeType` at byte 30, `fileSize` at byte 56). -/
def grub_esfs_iterate_dir (dirMem : Nat → Nat)
    (readSlot : Nat → Except GrubErr (Nat → Nat))
    (hook : List Nat → Nat → Bool) : IterResult :=
  if byteAt dirMem 30 ≠ 2 then ⟨1, [], some (.badFileType "not a directory")⟩
  else if 2 ^ 31 ≤ le64 dirMem 56 then ⟨1, [], some (.badFS "directory too large")⟩
  else iterDirAux readSlot hook (numSlots (le64 dirMem 56)) 0

/-! Concrete buffers used to instantiate the theorems below.  Each is a
directory entry (or superblock) given as a byte function; unlisted offsets
are zero. -/

/-- A well-formed DIRECT file entry: `attributeOffset = 96`; DATA attribute
at 96 with `size = 48`, `indirection = DIRECT`, `dataOffset = 32`,
`count = 5`; `fileSize = 5`; the five embedded bytes spell "world". -/
def wDirectMem : Nat → Nat := fun i =>
  if i = 28 then 96
  else if i = 56 then 5
  else if i = 96 then 1
  else if i = 98 then 48
  else if i = 100 then 1
  else if i = 101 then 32
  else if i = 102 then 5
  else if i = 128 then 119 else if i = 129 then 111 else if i = 130 then 114
  else if i = 131 then 108 else if i = 132 then 100
  else 0

/-- A DIRECT entry with `fileSize = 10` and declared byte count 100
(`size = 40`, `dataOffset = 32`, so `size - dataOffset = 8`). -/
def cexOverflowMem : Nat → Nat := fun i =>
  if i = 28 then 96
  else if i = 56 then 10
  else if i = 96 then 1
  else if i = 98 then 40
  else if i = 100 then 1
  else if i = 101 then 32
  else if i = 102 then 100
  else 0

/-- A DIRECT entry with `count = 40` but only `size - dataOffset = 8` bytes
of embedded room (`size = 40`, `dataOffset = 32`); `fileSize = 1000`; the
byte at embedded offset 10 (entry offset 96 + 32 + 10) is 77. -/
def cexDirectMem : Nat → Nat := fun i =>
  if i = 28 then 96
  else if i = 56 then 232 else if i = 57 then 3
  else if i = 96 then 1
  else if i = 98 then 40
  else if i = 100 then 1
  else if i = 101 then 32
  else if i = 102 then 40
  else if i = 138 then 77
  else 0

/-- A DIRECT entry with `fileSize = 0` and `count = 10`. -/
def cexEofMem : Nat → Nat := fun i =>
  if i = 28 then 96
  else if i = 96 then 1
  else if i = 98 then 48
  else if i = 100 then 1
  else if i = 101 then 32
  else if i = 102 then 10
  else 0

/-- An L1 file entry: DATA attribute at 96 with `size = 72`,
`indirection = L1`, `dataOffset = 32`, one extent record
(header 0, delta +5, 1 block); `fileSize = 4096`. -/
def l1FailMem : Nat → Nat := fun i =>
  if i = 28 then 96
  else if i = 57 then 16
  else if i = 96 then 1
  else if i = 98 then 72
  else if i = 100 then 2
  else if i = 101 then 32
  else if i = 102 then 1
  else if i = 129 then 5 else if i = 130 then 1
  else 0

/-- An entry whose attribute list holds one attribute of type 5, size 8. -/
def wAttrMem : Nat → Nat := fun i =>
  if i = 28 then 96 else if i = 96 then 5 else if i = 98 then 8 else 0

/-- A buffer with a valid "DirEntry" signature but `attributeOffset = 7`
(unaligned and below 96). -/
def badOffMem : Nat → Nat := fun i =>
  if i < 8 then direntrySignature.getD i 0 else if i = 28 then 7 else 0

/-- A valid superblock image: correct signature, `requiredReadVersion = 0`,
`blockSize = 512`, `blockCount = 1`. -/
def wSuperblock : Nat → Nat := fun i =>
  if i < 16 then esfsSignature.getD i 0
  else if i = 65 then 2
  else if i = 72 then 1
  else 0

/-- Directory slot: a valid file entry named "a". -/
def wSlotFile : Nat → Nat := fun i =>
  if i < 8 then direntrySignature.getD i 0
  else if i = 28 then 96
  else if i = 30 then 1
  else if i = 96 then 2
  else if i = 98 then 16
  else if i = 100 then 1
  else if i = 104 then 97
  else 0

/-- Directory slot: first signature byte corrupted. -/
def wSlotBad : Nat → Nat := fun i => if i = 0 then 88 else wSlotFile i

/-- Directory slot: a valid directory entry named "sub". -/
def wSlotSub : Nat → Nat := fun i =>
  if i < 8 then direntrySignature.getD i 0
  else if i = 28 then 96
  else if i = 30 then 2
  else if i = 96 then 2
  else if i = 98 then 16
  else if i = 100 then 3
  else if i = 104 then 115 else if i = 105 then 117 else if i = 106 then 98
  else 0

/-- The slot stream: file "a", a corrupt slot, directory "sub". -/
def wSlotStream : Nat → (Nat → Nat) := fun i =>
  if i = 0 then wSlotFile else if i = 1 then wSlotBad else wSlotSub

/-- A directory node entry: `nodeType = 2`, `fileSize = 3072` (3 slots). -/
def wDirMem : Nat → Nat := fun i =>
  if i = 30 then 2 else if i = 57 then 12 else 0


theorem byteAt_lt (mem : Nat → Nat) (i : Nat) : byteAt mem i < 256 :=
  Nat.mod_lt _ (by norm_num)

theorem leBytes_lt (mem : Nat → Nat) : ∀ k off, leBytes mem off k < 2 ^ (8 * k) := by
  intro k
  induction k with
  | zero => intro off; simp [leBytes]
  | succ k ih =>
    intro off
    have h1 := byteAt_lt mem off
    have h2 := ih (off + 1)
    have hp : 2 ^ (8 * (k + 1)) = 2 ^ (8 * k) * 256 := by
      rw [show 8 * (k + 1) = 8 * k + 8 by ring, pow_add]; norm_num
    simp only [leBytes]
    omega

theorem le64_lt (mem : Nat → Nat) (off : Nat) : le64 mem off < 2 ^ 64 :=
  leBytes_lt mem 8 off

theorem beVal_lt (mem : Nat → Nat) : ∀ k off, beVal mem off k < 2 ^ (8 * k) := by
  intro k
  induction k with
  | zero => intro off; simp [beVal]
  | succ k ih =>
    intro off
    have h1 := byteAt_lt mem off
    have h2 := ih (off + 1)
    have hp : 2 ^ (8 * (k + 1)) = 2 ^ (8 * k) * 256 := by
      rw [show 8 * (k + 1) = 8 * k + 8 by ring, pow_add]; norm_num
    simp only [beVal]
    nlinarith

theorem beAccum_mod (mem : Nat → Nat) :
    ∀ k off acc, acc < 2 ^ 64 →
      beAccum mem acc off k = (acc * 2 ^ (8 * k) + beVal mem off k) % 2 ^ 64 := by
  intro k
  induction k with
  | zero =>
    intro off acc hacc
    simp only [beAccum, beVal, Nat.mul_one, Nat.pow_zero, Nat.add_zero]
    omega
  | succ k ih =>
    intro off acc hacc
    have hb := byteAt_lt mem off
    have hdvd : 256 ∣ (acc * 256) % 2 ^ 64 := by
      have h1 : (256 : Nat) ∣ 2 ^ 64 := by norm_num
      exact (Nat.dvd_mod_iff h1).mpr ⟨acc, by ring⟩
    have hlt : (acc * 256) % 2 ^ 64 + byteAt mem off < 2 ^ 64 := by
      obtain ⟨q, hq⟩ := hdvd
      have := Nat.mod_lt (acc * 256) (show 0 < 2 ^ 64 by norm_num)
      omega
    have heq : ((acc * 256) % 2 ^ 64 + byteAt mem off) ≡ (acc * 256 + byteAt mem off) [MOD 2 ^ 64] :=
      (Nat.mod_modEq (acc * 256) (2 ^ 64)).add_right _
    have hstep := (heq.mul_right (2 ^ (8 * k))).add_right (beVal mem (off + 1) k)
    have hp : (2 : Nat) ^ (8 * (k + 1)) = 2 ^ (8 * k) * 256 := by
      rw [show 8 * (k + 1) = 8 * k + 8 by ring, pow_add]; norm_num
    simp only [beAccum, beVal]
    rw [ih (off + 1) _ hlt, hstep]
    congr 1
    rw [hp]
    ring

theorem beAccum_unsigned (mem : Nat → Nat) (off k : Nat) (hk : k ≤ 8) :
    beAccum mem 0 off k = beVal mem off k := by
  rw [beAccum_mod mem k off 0 (by norm_num)]
  simp only [Nat.zero_mul, Nat.zero_add]
  exact Nat.mod_eq_of_lt (lt_of_lt_of_le (beVal_lt mem k off)
    (Nat.pow_le_pow_right (by norm_num) (by omega)))

theorem beAccum_signed (mem : Nat → Nat) (off k : Nat) :
    ((beAccum mem (extentSeed mem off) off k : Nat) : Int)
      = extentSignedDelta mem off k % 2 ^ 64 := by
  unfold extentSeed extentSignedDelta
  by_cases hneg : 128 ≤ byteAt mem off
  · rw [if_pos hneg, if_pos hneg,
      show (2 ^ 64 - 1 : Nat) = 18446744073709551615 from by norm_num,
      beAccum_mod mem k off _ (by norm_num), Int.natCast_mod]
    push_cast
    rw [show ((18446744073709551615 : Int)) * 2 ^ (8 * k) + (beVal mem off k : Int)
        = ((beVal mem off k : Int) - 2 ^ (8 * k)) + 2 ^ (8 * k) * 18446744073709551616 from by
      ring]
    rw [Int.add_mul_emod_self]
  · rw [if_neg hneg, if_neg hneg, beAccum_mod mem k off 0 (by norm_num), Int.natCast_mod]
    push_cast
    ring_nf


theorem sigMatch_iff (m : Nat → Nat) (sig : List Nat) :
    sigMatch m sig = true ↔ ∀ i < sig.length, byteAt m i = sig.getD i 0 := by
  simp [sigMatch, List.all_eq_true, List.mem_range, beq_iff_eq]

theorem findAttrAux_some (mem : Nat → Nat) (attrid minsize : Nat) :
    ∀ gas off r, findAttrAux mem attrid minsize gas off = some r →
      r % 8 = 0 ∧ 4 ≤ le16 mem (r + 2) ∧ minsize ≤ le16 mem (r + 2) ∧
      r + le16 mem (r + 2) ≤ 1024 := by
  intro gas
  induction gas with
  | zero => intro off r h; simp [findAttrAux] at h
  | succ g ih =>
    intro off r h
    simp only [findAttrAux] at h
    by_cases h1 : off ≤ 1020
    · rw [if_pos h1] at h
      by_cases h2 : off % 8 ≠ 0
      · rw [if_pos h2] at h
        exact Option.noConfusion h
      · rw [if_neg h2] at h
        by_cases h3 : le16 mem (off + 2) < 4 ∨ 1024 < le16 mem (off + 2) + off
        · rw [if_pos h3] at h
          exact Option.noConfusion h
        · rw [if_neg h3] at h
          by_cases h4 : le16 mem off = attrid ∧ minsize ≤ le16 mem (off + 2)
          · rw [if_pos h4] at h
            obtain rfl : off = r := Option.some.inj h
            obtain ⟨h4a, h4b⟩ := h4
            push_neg at h3
            omega
          · rw [if_neg h4] at h
            exact ih _ _ h
    · rw [if_neg h1] at h
      exact Option.noConfusion h


theorem nat_ne_zero_iff_testBit (x : Nat) : x ≠ 0 ↔ ∃ i, x.testBit i = true := by
  constructor
  · intro hx
    by_contra hall
    push_neg at hall
    refine hx (Nat.eq_of_testBit_eq fun i => ?_)
    rw [Nat.zero_testBit]
    simpa using hall i
  · rintro ⟨i, hi⟩ rfl
    rw [Nat.zero_testBit] at hi
    exact Bool.false_ne_true hi

theorem maskTestBit (i : Nat) :
    (0xFFFFFFFFF00001FF : Nat).testBit i = (decide (i < 9) || decide (28 ≤ i ∧ i < 64)) := by
  by_cases h64 : i < 64
  · interval_cases i <;> decide
  · have h1 : (0xFFFFFFFFF00001FF : Nat) < 2 ^ i := by
      calc (0xFFFFFFFFF00001FF : Nat) < 2 ^ 64 := by norm_num
        _ ≤ 2 ^ i := Nat.pow_le_pow_right (by norm_num) (by omega)
    rw [Nat.testBit_lt_two_pow h1]
    symm
    simp only [Bool.or_eq_false_iff, decide_eq_false_iff_not]
    omega

theorem mod512_ne_zero_iff (bs : Nat) : bs % 512 ≠ 0 ↔ ∃ i, i < 9 ∧ bs.testBit i = true := by
  rw [show (512 : Nat) = 2 ^ 9 from by norm_num, nat_ne_zero_iff_testBit]
  constructor
  · rintro ⟨i, hi⟩
    rw [Nat.testBit_mod_two_pow] at hi
    simp only [Bool.and_eq_true, decide_eq_true_eq] at hi
    exact ⟨i, hi.1, hi.2⟩
  · rintro ⟨i, h9, hb⟩
    refine ⟨i, ?_⟩
    rw [Nat.testBit_mod_two_pow]
    simp [h9, hb]

theorem ge_two_pow_28_iff (bs : Nat) : 2 ^ 28 ≤ bs ↔ ∃ i, 28 ≤ i ∧ bs.testBit i = true := by
  constructor
  · intro h
    have hne : bs >>> 28 ≠ 0 := by
      rw [Nat.shiftRight_eq_div_pow]
      intro h0
      rw [Nat.div_eq_zero_iff (by positivity)] at h0
      omega
    obtain ⟨j, hj⟩ := (nat_ne_zero_iff_testBit _).mp hne
    rw [Nat.testBit_shiftRight] at hj
    exact ⟨28 + j, by omega, hj⟩
  · rintro ⟨i, h28, hb⟩
    by_contra hlt
    push_neg at hlt
    have hbs : bs < 2 ^ i :=
      lt_of_lt_of_le hlt (Nat.pow_le_pow_right (by norm_num) h28)
    rw [Nat.testBit_lt_two_pow hbs] at hb
    exact Bool.false_ne_true hb

theorem land_mask_iff (bs : Nat) (hb : bs < 2 ^ 64) :
    (bs &&& 0xFFFFFFFFF00001FF) ≠ 0 ↔ (bs % 512 ≠ 0 ∨ 2 ^ 28 ≤ bs) := by
  rw [nat_ne_zero_iff_testBit, mod512_ne_zero_iff, ge_two_pow_28_iff]
  constructor
  · rintro ⟨i, hi⟩
    rw [Nat.testBit_land, maskTestBit, Bool.and_eq_true] at hi
    obtain ⟨hbi, hmi⟩ := hi
    simp only [Bool.or_eq_true, decide_eq_true_eq] at hmi
    rcases hmi with h9 | ⟨h28, h64⟩
    · exact Or.inl ⟨i, h9, hbi⟩
    · exact Or.inr ⟨i, h28, hbi⟩
  · have key : ∀ i, i < 64 → bs.testBit i = true → i < 9 ∨ (28 ≤ i ∧ i < 64) →
        ∃ j, (bs &&& 0xFFFFFFFFF00001FF).testBit j = true := by
      intro i h64 hbi hrange
      refine ⟨i, ?_⟩
      rw [Nat.testBit_land, maskTestBit, hbi]
      simp only [Bool.true_and, Bool.or_eq_true, decide_eq_true_eq]
      omega
    rintro (⟨i, h9, hbi⟩ | ⟨i, h28, hbi⟩)
    · exact key i (by omega) hbi (Or.inl h9)
    · have h64 : i < 64 := by
        by_contra hge
        push_neg at hge
        have hbs : bs < 2 ^ i :=
          lt_of_lt_of_le hb (Nat.pow_le_pow_right (by norm_num) hge)
        rw [Nat.testBit_lt_two_pow hbs] at hbi
        exact Bool.false_ne_true hbi
      exact key i h64 hbi (Or.inr ⟨h28, h64⟩)

theorem l1Loop_ret_le (mem : Nat → Nat) (aoff dataSize bsize len pos : Nat)
    (diskOk : Nat → Nat → Nat → Bool) (hook : Bool) :
    ∀ fuel extOff curPos alreadyRead curStart st, alreadyRead ≤ len →
      (l1Loop mem aoff dataSize bsize len pos diskOk hook
          fuel extOff curPos alreadyRead curStart st).ret = -1 ∨
      ∃ n : Nat, (l1Loop mem aoff dataSize bsize len pos diskOk hook
          fuel extOff curPos alreadyRead curStart st).ret = (n : Int) ∧ n ≤ len := by
  intro fuel
  induction fuel with
  | zero =>
    intro extOff curPos alreadyRead curStart st hle
    exact Or.inr ⟨alreadyRead, rfl, hle⟩
  | succ f ih =>
    intro extOff curPos alreadyRead curStart st hle
    simp only [l1Loop]
    repeat' split
    all_goals first
      | exact Or.inr ⟨alreadyRead, rfl, hle⟩
      | exact Or.inl rfl
      | exact ih _ _ _ _ _ hle
      | (apply ih; omega)


/-- C10: for every 1024-byte directory entry with arbitrary contents and
every attribute type and minimum size, `get_direntry_attribute` either
returns no attribute or returns one at an 8-byte-aligned offset with
`4 ≤ size`, `size` at least the requested minimum, and `off + size ≤ 1024`,
so the attribute lies wholly inside the 1024-byte entry. -/
theorem get_direntry_attribute_in_bounds (mem : Nat → Nat) (attrid minsize r : Nat)
    (h : get_direntry_attribute mem attrid minsize = some r) :
    r % 8 = 0 ∧ 4 ≤ le16 mem (r + 2) ∧ minsize ≤ le16 mem (r + 2) ∧
    r + le16 mem (r + 2) ≤ 1024 :=
  findAttrAux_some mem attrid minsize 1024 (le16 mem 28) r h

/-- C10 witness: the bounds at a concrete entry holding a type-5 attribute. -/
theorem get_direntry_attribute_in_bounds_witness :
    96 % 8 = 0 ∧ 4 ≤ le16 wAttrMem (96 + 2) ∧ 4 ≤ le16 wAttrMem (96 + 2) ∧
    96 + le16 wAttrMem (96 + 2) ≤ 1024 :=
  get_direntry_attribute_in_bounds wAttrMem 5 4 96 (by decide)

/-- C9 (amended): `esfs_check_direntry` accepts a 1024-byte buffer exactly
when its first 8 bytes equal "DirEntry"; `attributeOffset` is not examined
by the parser (its alignment and upper bound are checked later, during
attribute lookup, and the lower bound 96 is never checked). -/
theorem esfs_check_direntry_iff_signature (m : Nat → Nat) :
    esfs_check_direntry m = true ↔ ∀ i < 8, byteAt m i = direntrySignature.getD i 0 :=
  sigMatch_iff m direntrySignature

/-- C9 witness: a buffer with the literal signature is accepted. -/
theorem esfs_check_direntry_iff_signature_witness : esfs_check_direntry badOffMem = true :=
  (esfs_check_direntry_iff_signature badOffMem).mpr (by decide)

/-- C9 counterexample: a buffer whose first 8 bytes are "DirEntry" but whose
`attributeOffset` is 7 — below 96 and not 8-byte aligned — is accepted by
the parser, refuting the claim that such buffers are rejected. -/
theorem esfs_check_direntry_accepts_bad_offset :
    esfs_check_direntry badOffMem = true ∧ le16 badOffMem 28 = 7 ∧
    ¬(96 ≤ le16 badOffMem 28) ∧ le16 badOffMem 28 % 8 ≠ 0 := by decide

/-- C5: the extent-record decoder computes `startBytes = (h & 7) + 1` and
`countBytes = ((h >> 3) & 7) + 1` from the header byte, decodes `countBytes`
big-endian bytes as the unsigned block count, and adds the `startBytes`-byte
big-endian two's-complement signed delta (accumulator seeded with all ones
when the top bit of the first delta byte is set) to the running cursor
`curStart` with wrap-around modulo `2 ^ 64`. -/
theorem extent_record_decode (mem : Nat → Nat) (h dOff cOff curStart : Nat) :
    extentStartBytes h = h % 8 + 1 ∧ extentCountBytes h = h / 8 % 8 + 1 ∧
    extentStartBytes h ≤ 8 ∧ extentCountBytes h ≤ 8 ∧
    beAccum mem 0 cOff (extentCountBytes h) = beVal mem cOff (extentCountBytes h) ∧
    (((curStart + beAccum mem (extentSeed mem dOff) dOff (extentStartBytes h)) % 2 ^ 64 : Nat) : Int)
      = ((curStart : Int) + extentSignedDelta mem dOff (extentStartBytes h)) % 2 ^ 64 := by
  have hs : extentStartBytes h = h % 8 + 1 := by
    unfold extentStartBytes
    rw [show (7 : Nat) = 2 ^ 3 - 1 from rfl, Nat.and_pow_two_sub_one_eq_mod]
  have hc : extentCountBytes h = h / 8 % 8 + 1 := by
    unfold extentCountBytes
    rw [show (7 : Nat) = 2 ^ 3 - 1 from rfl, Nat.and_pow_two_sub_one_eq_mod,
      Nat.shiftRight_eq_div_pow]
  have hs8 : extentStartBytes h ≤ 8 := by omega
  have hc8 : extentCountBytes h ≤ 8 := by omega
  refine ⟨hs, hc, hs8, hc8, beAccum_unsigned mem cOff _ hc8, ?_⟩
  rw [Int.natCast_mod]
  push_cast
  rw [beAccum_signed mem dOff (extentStartBytes h)]
  rw [show (2 : Int) ^ 64 = 18446744073709551616 from by norm_num,
    Int.add_emod, Int.emod_emod_of_dvd _ dvd_rfl, ← Int.add_emod]

/-- C8: evaluation of `grub_esfs_read_file` at a failing input.  On an L1
node with one extent, when the single block-device read fails the function
returns -1 with the device's read-hook slot still installed (`hookSet`
true), contrary to the claim that the slot is cleared on every return path;
on the same node with a succeeding device the hook is installed for the
read (firing once, one read issued) and the slot is cleared on return. -/
theorem read_file_hook_left_set_on_failed_read :
    (grub_esfs_read_file l1FailMem 4096 (fun _ _ _ => false) true 0 100).ret = -1 ∧
    (grub_esfs_read_file l1FailMem 4096 (fun _ _ _ => false) true 0 100).reads.length = 1 ∧
    (grub_esfs_read_file l1FailMem 4096 (fun _ _ _ => false) true 0 100).hookSet = true ∧
    (grub_esfs_read_file l1FailMem 4096 (fun _ _ _ => true) true 0 100).reads.length = 1 ∧
    (grub_esfs_read_file l1FailMem 4096 (fun _ _ _ => true) true 0 100).hookFires = 1 ∧
    (grub_esfs_read_file l1FailMem 4096 (fun _ _ _ => true) true 0 100).hookSet = false := by
  decide


/-- C2: for a superblock successfully read from device byte offset 8192,
mount fails with BadFS "not an esfs filesystem" before issuing any further
disk read exactly when the signature differs from "!EssenceFS2-----", or
requiredReadVersion > 10, or blockSize = 0, or blockSize is not a multiple
of 512 or reaches 2^28 (the raw masked test), or blockCount = 0; when none
of these hold, mount proceeds to read the root directory entry. -/
theorem mount_validation (sb : Nat → Nat) (rootRead : Except GrubErr (Nat → Nat)) :
    ((¬ (∀ i < 16, byteAt sb i = esfsSignature.getD i 0) ∨ 10 < le16 sb 48 ∨
        le64 sb 64 = 0 ∨ le64 sb 64 % 512 ≠ 0 ∨ 2 ^ 28 ≤ le64 sb 64 ∨ le64 sb 72 = 0)
      ↔ ((grub_esfs_mount sb rootRead).res = .error (.badFS "not an esfs filesystem") ∧
          (grub_esfs_mount sb rootRead).rootRead = false)) ∧
    (¬ (¬ (∀ i < 16, byteAt sb i = esfsSignature.getD i 0) ∨ 10 < le16 sb 48 ∨
        le64 sb 64 = 0 ∨ le64 sb 64 % 512 ≠ 0 ∨ 2 ^ 28 ≤ le64 sb 64 ∨ le64 sb 72 = 0)
      → (grub_esfs_mount sb rootRead).rootRead = true) := by
  have hsig : sigMatch sb esfsSignature = true ↔
      ∀ i < 16, byteAt sb i = esfsSignature.getD i 0 := by
    simpa using sigMatch_iff sb esfsSignature
  have hmask := land_mask_iff (le64 sb 64) (le64_lt sb 64)
  have hbad : superblockBad sb = true ↔
      (¬ (∀ i < 16, byteAt sb i = esfsSignature.getD i 0) ∨ 10 < le16 sb 48 ∨
        le64 sb 64 = 0 ∨ le64 sb 64 % 512 ≠ 0 ∨ 2 ^ 28 ≤ le64 sb 64 ∨ le64 sb 72 = 0) := by
    unfold superblockBad
    simp only [Bool.or_eq_true, Bool.not_eq_true', bne_iff_ne, ne_eq, beq_iff_eq,
      decide_eq_true_eq]
    constructor
    · rintro ((((h | h) | h) | h) | h)
      · exact Or.inl fun hall => by rw [← hsig] at hall; rw [hall] at h; cases h
      · exact Or.inr (Or.inl h)
      · exact Or.inr (Or.inr (Or.inl h))
      · rcases hmask.mp h with h1 | h1
        · exact Or.inr (Or.inr (Or.inr (Or.inl h1)))
        · exact Or.inr (Or.inr (Or.inr (Or.inr (Or.inl h1))))
      · exact Or.inr (Or.inr (Or.inr (Or.inr (Or.inr h))))
    · rintro (h | h | h | h | h | h)
      · exact Or.inl (Or.inl (Or.inl (Or.inl
          (Bool.eq_false_iff.mpr fun ht => h (hsig.mp ht)))))
      · exact Or.inl (Or.inl (Or.inl (Or.inr h)))
      · exact Or.inl (Or.inl (Or.inr h))
      · exact Or.inl (Or.inr (hmask.mpr (Or.inl h)))
      · exact Or.inl (Or.inr (hmask.mpr (Or.inr h)))
      · exact Or.inr h
  by_cases hb : superblockBad sb = true
  · have hP := hbad.mp hb
    have hmeq : grub_esfs_mount sb rootRead =
        ⟨.error (.badFS "not an esfs filesystem"), false⟩ := by
      unfold grub_esfs_mount
      rw [if_pos hb]
    refine ⟨⟨fun _ => by rw [hmeq]; exact ⟨rfl, rfl⟩, fun _ => hP⟩, fun hnP => absurd hP hnP⟩
  · have hP : ¬ (¬ (∀ i < 16, byteAt sb i = esfsSignature.getD i 0) ∨ 10 < le16 sb 48 ∨
        le64 sb 64 = 0 ∨ le64 sb 64 % 512 ≠ 0 ∨ 2 ^ 28 ≤ le64 sb 64 ∨ le64 sb 72 = 0) :=
      fun hp => hb (hbad.mpr hp)
    have hroot : (grub_esfs_mount sb rootRead).rootRead = true := by
      unfold grub_esfs_mount
      rw [if_neg hb]
      cases rootRead with
      | error e => rfl
      | ok rm =>
        dsimp only
        split <;> rfl
    refine ⟨⟨fun hp => absurd hp hP, ?_⟩, fun _ => hroot⟩
    rintro ⟨_, hfalse⟩
    rw [hroot] at hfalse
    cases hfalse

/-- C2 witness: for a concrete valid superblock none of the failure
conditions hold and mount goes on to read the root directory entry. -/
theorem mount_validation_witness :
    (grub_esfs_mount wSuperblock (.ok wSlotFile)).rootRead = true :=
  (mount_validation wSuperblock (.ok wSlotFile)).2 (by decide)


theorem read_file_no_output_of_eof (mem : Nat → Nat) (bsize : Nat)
    (diskOk : Nat → Nat → Nat → Bool) (hook : Bool) (pos len : Nat)
    (hpos : le64 mem 56 < pos) :
    (grub_esfs_read_file mem bsize diskOk hook pos len).ret = -1 ∧
    (grub_esfs_read_file mem bsize diskOk hook pos len).reads = [] ∧
    (grub_esfs_read_file mem bsize diskOk hook pos len).out = [] ∧
    (grub_esfs_read_file mem bsize diskOk hook pos len).srcOffs = [] := by
  unfold grub_esfs_read_file
  cases ha : get_direntry_attribute mem 1 32 with
  | none => exact ⟨rfl, rfl, rfl, rfl⟩
  | some a =>
    dsimp only
    by_cases h1 : le16 mem (a + 2) < byteAt mem (a + 5)
    · rw [if_pos h1]
      exact ⟨rfl, rfl, rfl, rfl⟩
    · rw [if_neg h1, if_pos hpos]
      exact ⟨rfl, rfl, rfl, rfl⟩

theorem read_file_direct_eq (mem : Nat → Nat) (bsize : Nat)
    (diskOk : Nat → Nat → Nat → Bool) (hook : Bool) (pos len a : Nat)
    (ha : get_direntry_attribute mem 1 32 = some a)
    (hdo : byteAt mem (a + 5) ≤ le16 mem (a + 2))
    (hind : byteAt mem (a + 4) = 1)
    (hpos : pos ≤ le64 mem 56) :
    grub_esfs_read_file mem bsize diskOk hook pos len =
      (let len1 := if le64 mem 56 < (len + pos) % 2 ^ 64 then le64 mem 56 - pos else len
       let dataSize := le16 mem (a + 2) - byteAt mem (a + 5)
       let maxSize := if le16 mem (a + 6) < dataSize then dataSize else le16 mem (a + 6)
       if maxSize < pos then ⟨-1, none, [], [], some len1, [], 0, false⟩
       else
         let len2 := if maxSize - pos < len1 then maxSize - pos else len1
         ⟨(len2 : Int), none,
          (List.range len2).map (fun i => byteAt mem (a + byteAt mem (a + 5) + pos + i)),
          (List.range len2).map (fun i => pos + i),
          some len1, [], 0, false⟩) := by
  unfold grub_esfs_read_file
  rw [ha]
  dsimp only
  rw [if_neg (by omega), if_neg (by omega), if_pos hind]


/-- C1 (amended): whenever `pos + len` does not overflow u64, a
non-negative return from `grub_esfs_read_file` is a byte count of at most
`min (len, fileSize - pos)`, so the logical byte range covered ends at or
before `fileSize`, on the DIRECT and the L1 path alike. -/
theorem read_file_count_in_range (mem : Nat → Nat) (bsize : Nat)
    (diskOk : Nat → Nat → Nat → Bool) (hook : Bool) (pos len n : Nat)
    (hov : pos + len < 2 ^ 64)
    (hn : (grub_esfs_read_file mem bsize diskOk hook pos len).ret = (n : Int)) :
    n ≤ len ∧ pos + n ≤ le64 mem 56 := by
  unfold grub_esfs_read_file at hn
  cases ha : get_direntry_attribute mem 1 32 with
  | none =>
    rw [ha] at hn
    dsimp only at hn
    omega
  | some a =>
    rw [ha] at hn
    dsimp only at hn
    rw [Nat.mod_eq_of_lt (show len + pos < 2 ^ 64 by omega)] at hn
    by_cases h1 : le16 mem (a + 2) < byteAt mem (a + 5)
    · rw [if_pos h1] at hn
      dsimp only at hn
      omega
    · rw [if_neg h1] at hn
      by_cases h2 : le64 mem 56 < pos
      · rw [if_pos h2] at hn
        dsimp only at hn
        omega
      · rw [if_neg h2] at hn
        set L := if le64 mem 56 < len + pos then le64 mem 56 - pos else len with hL
        have hLb : L ≤ len ∧ pos + L ≤ le64 mem 56 := by
          rw [hL]
          split <;> omega
        by_cases h3 : byteAt mem (a + 4) = 1
        · rw [if_pos h3] at hn
          by_cases h4 : (if le16 mem (a + 6) < le16 mem (a + 2) - byteAt mem (a + 5)
              then le16 mem (a + 2) - byteAt mem (a + 5) else le16 mem (a + 6)) < pos
          · rw [if_pos h4] at hn
            dsimp only at hn
            omega
          · rw [if_neg h4] at hn
            dsimp only at hn
            have hcast : (if (if le16 mem (a + 6) < le16 mem (a + 2) - byteAt mem (a + 5)
                then le16 mem (a + 2) - byteAt mem (a + 5) else le16 mem (a + 6)) - pos < L
                then (if le16 mem (a + 6) < le16 mem (a + 2) - byteAt mem (a + 5)
                then le16 mem (a + 2) - byteAt mem (a + 5) else le16 mem (a + 6)) - pos
                else L) = n := by exact_mod_cast hn
            split_ifs at hcast <;> omega
        · rw [if_neg h3] at hn
          by_cases h5 : byteAt mem (a + 4) = 2
          · rw [if_pos h5] at hn
            dsimp only at hn
            rcases l1Loop_ret_le mem a (le16 mem (a + 2) - byteAt mem (a + 5)) bsize L pos
                diskOk hook (le16 mem (a + 6)) (byteAt mem (a + 5)) 0 0 0 ⟨[], 0, false⟩
                (Nat.zero_le L) with hr | ⟨m, hm, hml⟩
            · rw [hr] at hn
              omega
            · rw [hm] at hn
              have : m = n := by exact_mod_cast hn
              omega
          · rw [if_neg h5] at hn
            dsimp only at hn
            omega


/-- C1 witness: a concrete DIRECT read at `pos = 0, len = 5` returns 5. -/
theorem read_file_count_in_range_witness : 5 ≤ 5 ∧ 0 + 5 ≤ le64 wDirectMem 56 :=
  read_file_count_in_range wDirectMem 4096 (fun _ _ _ => true) false 0 5 5
    (by decide) (by decide)

/-- C1 counterexample: with `pos = 1` and `len = 2^64 - 1`, the u64 sum
`len + pos` wraps to 0, the `fileSize` clamp is skipped, and the DIRECT
path returns 99 bytes although `min (len, fileSize - pos) = 9`. -/
theorem read_file_count_overflow_cex :
    le64 cexOverflowMem 56 = 10 ∧
    (grub_esfs_read_file cexOverflowMem 4096 (fun _ _ _ => true) false 1
        (2 ^ 64 - 1)).ret = ((99 : Nat) : Int) ∧
    ¬(99 ≤ min (2 ^ 64 - 1) (le64 cexOverflowMem 56 - 1)) := by decide

/-- C6 (amended): for every `pos > fileSize`, `grub_esfs_read_file` returns
-1 without issuing device reads or producing data; once the DATA attribute
is located and `pos ≤ fileSize`, the effective length entering the data
branches is `fileSize - pos` whenever `pos + len` computed modulo `2 ^ 64`
exceeds `fileSize`, and `len` itself otherwise. -/
theorem read_file_eof_and_clamp (mem : Nat → Nat) (bsize : Nat)
    (diskOk : Nat → Nat → Nat → Bool) (hook : Bool) (pos len : Nat) :
    (le64 mem 56 < pos →
      (grub_esfs_read_file mem bsize diskOk hook pos len).ret = -1 ∧
      (grub_esfs_read_file mem bsize diskOk hook pos len).reads = [] ∧
      (grub_esfs_read_file mem bsize diskOk hook pos len).out = []) ∧
    (∀ a, get_direntry_attribute mem 1 32 = some a →
      byteAt mem (a + 5) ≤ le16 mem (a + 2) → pos ≤ le64 mem 56 →
      (grub_esfs_read_file mem bsize diskOk hook pos len).effLen =
        some (if le64 mem 56 < (len + pos) % 2 ^ 64 then le64 mem 56 - pos else len)) := by
  constructor
  · intro hpos
    obtain ⟨h1, h2, h3, _⟩ := read_file_no_output_of_eof mem bsize diskOk hook pos len hpos
    exact ⟨h1, h2, h3⟩
  · intro a ha hdo hpos
    unfold grub_esfs_read_file
    rw [ha]
    dsimp only
    rw [if_neg (by omega), if_neg (by omega)]
    repeat' split
    all_goals rfl

/-- C6 witness: at a concrete node, a read at `pos = 6 > fileSize = 5`
returns -1 with no device reads and no output. -/
theorem read_file_eof_and_clamp_witness :
    (grub_esfs_read_file wDirectMem 4096 (fun _ _ _ => true) false 6 10).ret = -1 ∧
    (grub_esfs_read_file wDirectMem 4096 (fun _ _ _ => true) false 6 10).reads = [] ∧
    (grub_esfs_read_file wDirectMem 4096 (fun _ _ _ => true) false 6 10).out = [] :=
  (read_file_eof_and_clamp wDirectMem 4096 (fun _ _ _ => true) false 6 10).1 (by decide)

/-- C6 counterexample: on a node with `fileSize = 0`, a read at
`pos = 0 ≥ fileSize` returns 0, not -1, refuting the claimed EOF condition
`pos ≥ fileSize`; the source tests strictly `pos > fileSize`. -/
theorem read_file_eof_boundary_cex :
    le64 cexEofMem 56 ≤ 0 ∧
    (grub_esfs_read_file cexEofMem 512 (fun _ _ _ => true) false 0 5).ret ≠ -1 ∧
    (grub_esfs_read_file cexEofMem 512 (fun _ _ _ => true) false 0 5).ret = ((0 : Nat) : Int) := by
  decide


/-- C3 (amended): on the DIRECT path every byte copied to the output buffer
comes from an embedded-data offset (past `dataOffset`) strictly below
`max (count, size - dataOffset)`; the source deliberately uses the larger
of the two bounds, so offsets up to that maximum - not up to the minimum -
can be read. -/
theorem read_file_direct_sources_bounded (mem : Nat → Nat) (bsize : Nat)
    (diskOk : Nat → Nat → Nat → Bool) (hook : Bool) (pos len a : Nat)
    (ha : get_direntry_attribute mem 1 32 = some a) :
    ∀ o ∈ (grub_esfs_read_file mem bsize diskOk hook pos len).srcOffs,
      o < max (le16 mem (a + 6)) (le16 mem (a + 2) - byteAt mem (a + 5)) := by
  unfold grub_esfs_read_file
  rw [ha]
  dsimp only
  split_ifs <;>
    first
      | (intro o ho
         dsimp only at ho
         exact absurd ho (List.not_mem_nil o))
      | (intro o ho
         simp only [List.mem_map, List.mem_range] at ho
         obtain ⟨i, hi, rfl⟩ := ho
         omega)

/-- C3 witness: source offset 0 of a concrete DIRECT read lies below
`max (count, size - dataOffset)`. -/
theorem read_file_direct_sources_bounded_witness :
    0 < max (le16 wDirectMem (96 + 6)) (le16 wDirectMem (96 + 2) - byteAt wDirectMem (96 + 5)) :=
  read_file_direct_sources_bounded wDirectMem 4096 (fun _ _ _ => true) false 0 5 96
    (by decide) 0 (by decide)

/-- C3 counterexample: on a DIRECT node with `count = 40` but only
`size - dataOffset = 8` embedded bytes, a read at `pos = 10` copies the
byte at embedded offset 10 - an offset not below
`min (count, size - dataOffset) = 8` - refuting the claimed `min` bound. -/
theorem read_file_direct_min_cap_cex :
    get_direntry_attribute cexDirectMem 1 32 = some 96 ∧
    (grub_esfs_read_file cexDirectMem 512 (fun _ _ _ => true) false 10 1).srcOffs = [10] ∧
    (grub_esfs_read_file cexDirectMem 512 (fun _ _ _ => true) false 10 1).out = [77] ∧
    ¬(10 < min (le16 cexDirectMem (96 + 6))
        (le16 cexDirectMem (96 + 2) - byteAt cexDirectMem (96 + 5))) := by
  decide


/-- C4: on a DIRECT node, with `embedded_cap = max (count, size - dataOffset)`:
if `pos > embedded_cap` the read returns EOF (-1, no errno) with no device
reads; otherwise (reachable with `pos ≤ fileSize`, and stated without u64
overflow of `pos + len`) the returned count is `len` clamped first to
`fileSize - pos` and then to `embedded_cap - pos`, exactly the embedded
bytes starting at attribute byte offset `dataOffset + pos` are copied to the
output buffer, and zero block-device reads are issued. -/
theorem read_file_direct_case (mem : Nat → Nat) (bsize : Nat)
    (diskOk : Nat → Nat → Nat → Bool) (hook : Bool) (pos len a : Nat)
    (ha : get_direntry_attribute mem 1 32 = some a)
    (hind : byteAt mem (a + 4) = 1)
    (hdo : byteAt mem (a + 5) ≤ le16 mem (a + 2)) :
    (max (le16 mem (a + 6)) (le16 mem (a + 2) - byteAt mem (a + 5)) < pos →
      (grub_esfs_read_file mem bsize diskOk hook pos len).ret = -1 ∧
      (grub_esfs_read_file mem bsize diskOk hook pos len).err = none ∧
      (grub_esfs_read_file mem bsize diskOk hook pos len).reads = []) ∧
    (pos ≤ max (le16 mem (a + 6)) (le16 mem (a + 2) - byteAt mem (a + 5)) →
     pos ≤ le64 mem 56 → pos + len < 2 ^ 64 →
      (grub_esfs_read_file mem bsize diskOk hook pos len).ret =
        ((min (min len (le64 mem 56 - pos))
          (max (le16 mem (a + 6)) (le16 mem (a + 2) - byteAt mem (a + 5)) - pos) : Nat) : Int) ∧
      (grub_esfs_read_file mem bsize diskOk hook pos len).out =
        (List.range (min (min len (le64 mem 56 - pos))
          (max (le16 mem (a + 6)) (le16 mem (a + 2) - byteAt mem (a + 5)) - pos))).map
          (fun i => byteAt mem (a + byteAt mem (a + 5) + pos + i)) ∧
      (grub_esfs_read_file mem bsize diskOk hook pos len).reads = [] ∧
      (grub_esfs_read_file mem bsize diskOk hook pos len).hookFires = 0) := by
  constructor
  · intro hcap
    by_cases hpos : le64 mem 56 < pos
    · obtain ⟨h1, h2, _, _⟩ := read_file_no_output_of_eof mem bsize diskOk hook pos len hpos
      refine ⟨h1, ?_, h2⟩
      unfold grub_esfs_read_file
      rw [ha]
      dsimp only
      rw [if_neg (by omega), if_pos hpos]
    · have hm : (if le16 mem (a + 6) < le16 mem (a + 2) - byteAt mem (a + 5)
            then le16 mem (a + 2) - byteAt mem (a + 5) else le16 mem (a + 6)) =
          max (le16 mem (a + 6)) (le16 mem (a + 2) - byteAt mem (a + 5)) := by
        split_ifs <;> omega
      rw [read_file_direct_eq mem bsize diskOk hook pos len a ha hdo hind (by omega)]
      dsimp only
      rw [hm, if_pos (by omega)]
      exact ⟨rfl, rfl, rfl⟩
  · intro hcap hpos hov
    have hm : (if le16 mem (a + 6) < le16 mem (a + 2) - byteAt mem (a + 5)
          then le16 mem (a + 2) - byteAt mem (a + 5) else le16 mem (a + 6)) =
        max (le16 mem (a + 6)) (le16 mem (a + 2) - byteAt mem (a + 5)) := by
      split_ifs <;> omega
    rw [read_file_direct_eq mem bsize diskOk hook pos len a ha hdo hind hpos]
    dsimp only
    rw [Nat.mod_eq_of_lt (show len + pos < 2 ^ 64 by omega), hm]
    rw [if_neg (by omega)]
    have hlen2 : (if max (le16 mem (a + 6)) (le16 mem (a + 2) - byteAt mem (a + 5)) - pos <
          (if le64 mem 56 < len + pos then le64 mem 56 - pos else len)
        then max (le16 mem (a + 6)) (le16 mem (a + 2) - byteAt mem (a + 5)) - pos
        else (if le64 mem 56 < len + pos then le64 mem 56 - pos else len)) =
        min (min len (le64 mem 56 - pos))
          (max (le16 mem (a + 6)) (le16 mem (a + 2) - byteAt mem (a + 5)) - pos) := by
      split_ifs <;> omega
    rw [hlen2]
    exact ⟨rfl, rfl, rfl, rfl⟩

/-- C4 witness: the DIRECT branch equations at a concrete node and read. -/
theorem read_file_direct_case_witness :
    (grub_esfs_read_file wDirectMem 4096 (fun _ _ _ => true) false 0 5).ret =
      ((min (min 5 (le64 wDirectMem 56 - 0))
        (max (le16 wDirectMem (96 + 6)) (le16 wDirectMem (96 + 2) - byteAt wDirectMem (96 + 5)) - 0) : Nat) : Int) ∧
    (grub_esfs_read_file wDirectMem 4096 (fun _ _ _ => true) false 0 5).out =
      (List.range (min (min 5 (le64 wDirectMem 56 - 0))
        (max (le16 wDirectMem (96 + 6)) (le16 wDirectMem (96 + 2) - byteAt wDirectMem (96 + 5)) - 0))).map
        (fun i => byteAt wDirectMem (96 + byteAt wDirectMem (96 + 5) + 0 + i)) ∧
    (grub_esfs_read_file wDirectMem 4096 (fun _ _ _ => true) false 0 5).reads = [] ∧
    (grub_esfs_read_file wDirectMem 4096 (fun _ _ _ => true) false 0 5).hookFires = 0 :=
  (read_file_direct_case wDirectMem 4096 (fun _ _ _ => true) false 0 5 96
    (by decide) (by decide) (by decide)).2 (by decide) (by decide) (by decide)


theorem iterDirAux_all_ok (slotM : Nat → (Nat → Nat)) :
    ∀ fuel i, iterDirAux (fun j => .ok (slotM j)) (fun _ _ => false) fuel i =
      ⟨0, (List.range' i fuel).filterMap (fun j => slotParse (slotM j)), none⟩ := by
  intro fuel
  induction fuel with
  | zero => intro i; rfl
  | succ f ih =>
    intro i
    rw [List.range'_succ, List.filterMap_cons]
    simp only [iterDirAux]
    cases hp : slotParse (slotM i) with
    | none => rw [ih (i + 1)]
    | some nt =>
      rw [ih (i + 1)]
      rfl

/-- C7: `grub_esfs_iterate_dir` walks the directory data stream in fixed
1024-byte strides; what it emits is the stride-indexed `filterMap` of the
per-slot parse over all strides covering `fileSize`, so a slot whose first
8 bytes differ from "DirEntry" contributes nothing (second conjunct), sets
no error, and does not disturb the stride - valid slots at later strides
are still emitted to the visitor. -/
theorem iterate_dir_fixed_strides (dirMem : Nat → Nat) (slotM : Nat → (Nat → Nat))
    (hty : byteAt dirMem 30 = 2) (hsz : le64 dirMem 56 < 2 ^ 31) :
    grub_esfs_iterate_dir dirMem (fun j => .ok (slotM j)) (fun _ _ => false) =
      ⟨0, (List.range (numSlots (le64 dirMem 56))).filterMap
        (fun i => slotParse (slotM i)), none⟩ ∧
    ∀ m, esfs_check_direntry m = false → slotParse m = none := by
  constructor
  · unfold grub_esfs_iterate_dir
    rw [if_neg (by omega), if_neg (by omega)]
    rw [List.range_eq_range']
    exact iterDirAux_all_ok slotM (numSlots (le64 dirMem 56)) 0
  · intro m hm
    unfold slotParse
    rw [hm]
    rfl

/-- C7 witness: a concrete three-slot directory (valid file "a", corrupt
slot, valid directory "sub") emits exactly the two valid slots, in order,
with no error. -/
theorem iterate_dir_fixed_strides_witness :
    grub_esfs_iterate_dir wDirMem (fun j => .ok (wSlotStream j)) (fun _ _ => false) =
      ⟨0, (List.range (numSlots (le64 wDirMem 56))).filterMap
        (fun i => slotParse (wSlotStream i)), none⟩ :=
  (iterate_dir_fixed_strides wDirMem wSlotStream (by decide) (by decide)).1

end Esfs
